import Mathlib

/-!
Verification of the JACK repository's channel-ledger and intent-store
components against their specification.

The channel ledger (`ChannelStateManager` in the source: `updateChannel`,
`getChannel`, `findOpenChannel`) is modelled from the specification, since only
its property tests appear under the packaged sources.  The flat-file intent
store (`saveIntent` / `getIntent` / `getIntents`) and the SDK's `signIntent`
are embedded directly from their TypeScript sources.
-/

/-- Generic string-keyed association store with JS-object / JS-Map assignment
semantics: writing to an existing key replaces its value in place, writing a
fresh key appends it.  Both the channel ledger's backing map and the intent
store's JSON object behave this way. -/
def assocPut {α : Type} : List (String × α) → String → α → List (String × α)
  | [], k, v => [(k, v)]
  | e :: rest, k, v => if e.1 = k then (k, v) :: rest else e :: assocPut rest k v

/-- Lookup by key: the value of the first entry whose key matches, if any. -/
def assocGet {α : Type} (l : List (String × α)) (k : String) : Option α :=
  (l.find? (fun e => e.1 == k)).map Prod.snd

/-- Channel status. Modelled from the spec: `ACTIVE` | `FINAL`. -/
inductive ChannelStatus where
  | ACTIVE
  | FINAL
deriving DecidableEq, Repr

/-- State intent tag. Modelled from the spec: `INITIALIZE` | `OPERATE` |
`FINALIZE` (| `RESIZE`). -/
inductive StateIntent where
  | INITIALIZE
  | OPERATE
  | FINALIZE
  | RESIZE
deriving DecidableEq, Repr

/-- One party's entitlement within a channel.  Modelled from the spec: the
source stores `amount` as a decimal string of a non-negative integer; it is
modelled here by its numeric value. -/
structure ChannelAllocation where
  destination : String
  token : String
  amount : Nat
deriving DecidableEq, Repr

/-- A snapshot of one channel at a point in its lifecycle.  Modelled from the
spec, section 3. -/
structure ChannelState where
  channelId : String
  status : ChannelStatus
  chainId : Int
  token : String
  allocations : List ChannelAllocation
  stateVersion : Nat
  stateIntent : StateIntent
  adjudicator : String
  challengePeriod : Nat
  createdAt : Nat
  updatedAt : Nat
deriving DecidableEq, Repr

/-- The ledger: an insertion-ordered map from channel identifier to the latest
stored snapshot, modelled as an association list. -/
abbrev Ledger := List (String × ChannelState)

/-- Modelled from the spec: `ChannelStateManager.updateChannel` (the
implementation is not under the packaged sources; only its tests are).
Stores or overwrites the record keyed by `channelId`; each call replaces the
entire stored record, with no merging of partial fields. -/
def updateChannel (ledger : Ledger) (channelId : String) (state : ChannelState) : Ledger :=
  assocPut ledger channelId state

/-- Modelled from the spec: `ChannelStateManager.getChannel`.  Pure lookup by
exact identifier; `none` signals "not found". -/
def getChannel (ledger : Ledger) (channelId : String) : Option ChannelState :=
  assocGet ledger channelId

/-- Modelled from the spec: `ChannelStateManager.findOpenChannel`.  Scans all
stored records and returns one whose `token` matches and whose `status` is
`ACTIVE` (first in insertion order; the tie-break among multiples is an
implementation choice the spec leaves open). -/
def findOpenChannel (ledger : Ledger) (token : String) : Option ChannelState :=
  (ledger.find? (fun e => e.2.token == token && e.2.status == ChannelStatus.ACTIVE)).map
    Prod.snd

/-- A sequence of `updateChannel` calls applied in order. -/
def applyUpdates (ledger : Ledger) (us : List (String × ChannelState)) : Ledger :=
  us.foldl (fun acc u => updateChannel acc u.1 u.2) ledger

/-- Sum of the allocation amounts of a snapshot's allocation list. -/
def allocSum (allocs : List ChannelAllocation) : Nat :=
  (allocs.map (fun a => a.amount)).sum

/-- Two-party allocation list as built by the lifecycle tests: sender first,
recipient second, both denominated in the channel's token. -/
def mkAllocs (sender recipient tok : String) (sBal rBal : Nat) : List ChannelAllocation :=
  [{ destination := sender, token := tok, amount := sBal },
   { destination := recipient, token := tok, amount := rBal }]

/-- The `INITIALIZE` snapshot the lifecycle starts from: version 1, status
`ACTIVE`, sender funded with `bal`, recipient with 0. -/
def initialSnapshot (cid sender recipient tok : String) (chainId : Int) (bal now : Nat) :
    ChannelState :=
  { channelId := cid
    status := ChannelStatus.ACTIVE
    chainId := chainId
    token := tok
    allocations := mkAllocs sender recipient tok bal 0
    stateVersion := 1
    stateIntent := StateIntent.INITIALIZE
    adjudicator := "0x2222222222222222222222222222222222222222"
    challengePeriod := 3600
    createdAt := now
    updatedAt := now }

/-- An `OPERATE` snapshot: spread of the initial snapshot with reallocated
balances, the next version and a refreshed timestamp. -/
def operateSnapshot (init : ChannelState) (sender recipient tok : String)
    (sBal rBal v now : Nat) : ChannelState :=
  { init with
    allocations := mkAllocs sender recipient tok sBal rBal
    stateVersion := v
    stateIntent := StateIntent.OPERATE
    updatedAt := now }

/-- A `FINALIZE` snapshot: like `operateSnapshot` but with status `FINAL`. -/
def finalizeSnapshot (init : ChannelState) (sender recipient tok : String)
    (sBal rBal v now : Nat) : ChannelState :=
  { init with
    status := ChannelStatus.FINAL
    allocations := mkAllocs sender recipient tok sBal rBal
    stateVersion := v
    stateIntent := StateIntent.FINALIZE
    updatedAt := now }

/-- The off-chain transfer loop: each transfer moves `amt` from the sender
balance to the recipient balance and writes the resulting `OPERATE` snapshot at
the next version.  The accumulator carries (ledger, sender balance, recipient
balance, current version). -/
def runTransfers (init : ChannelState) (cid sender recipient tok : String) (now : Nat)
    (acc : Ledger × Nat × Nat × Nat) (transfers : List Nat) : Ledger × Nat × Nat × Nat :=
  transfers.foldl
    (fun a amt =>
      (updateChannel a.1 cid
         (operateSnapshot init sender recipient tok (a.2.1 - amt) (a.2.2.1 + amt)
            (a.2.2.2 + 1) now),
       a.2.1 - amt, a.2.2.1 + amt, a.2.2.2 + 1))
    acc

/-- The full channel lifecycle over an empty ledger: create (`INITIALIZE`,
version 1), apply the transfers (`OPERATE`), then close (`FINALIZE`). -/
def runLifecycle (cid sender recipient tok : String) (chainId : Int) (bal : Nat)
    (transfers : List Nat) (now : Nat) : Ledger :=
  let init := initialSnapshot cid sender recipient tok chainId bal now
  let acc := runTransfers init cid sender recipient tok now
    (updateChannel [] cid init, bal, 0, 1) transfers
  updateChannel acc.1 cid
    (finalizeSnapshot init sender recipient tok acc.2.1 acc.2.2.1 (acc.2.2.2 + 1) now)

/-- A caller-side update built as a spread of the base snapshot: only status,
allocations, version, intent and timestamp may change; identity fields are
carried over unchanged. -/
def spreadUpdate (base : ChannelState) (st : ChannelStatus)
    (allocs : List ChannelAllocation) (v : Nat) (intent : StateIntent) (t : Nat) :
    ChannelState :=
  { base with
    status := st
    allocations := allocs
    stateVersion := v
    stateIntent := intent
    updatedAt := t }

/-- Embedded from the flat-file intent store (lib/store): the store file's
contents, `none` when the file does not exist, otherwise the parsed JSON
object, modelled as a string-keyed association list. -/
def getIntents {α : Type} (file : Option (List (String × α))) : List (String × α) :=
  match file with
  | none => []
  | some m => m

/-- Embedded from the flat-file intent store: read the store, assign
`intents[intentId] = intent`, write the store back. -/
def saveIntent {α : Type} (file : Option (List (String × α))) (intentId : String)
    (intent : α) : Option (List (String × α)) :=
  some (assocPut (getIntents file) intentId intent)

/-- Embedded from the flat-file intent store: read the store and index it by
`intentId`; `none` models the `undefined` result for an absent key. -/
def getIntent {α : Type} (file : Option (List (String × α))) (intentId : String) :
    Option α :=
  assocGet (getIntents file) intentId

/-- Embedded from the SDK's `IntentParams.constraints` field. -/
structure IntentConstraints where
  minAmountOut : String
  deadline : Int
  privacy : Bool
  customPolicies : Option (List String)
deriving DecidableEq, Repr

/-- Embedded from the SDK's `IntentParams`. -/
structure IntentParams where
  sourceChain : String
  destinationChain : String
  tokenIn : String
  tokenOut : String
  amountIn : String
  constraints : IntentConstraints
deriving DecidableEq, Repr

/-- Embedded from the SDK's `Intent`: `signature` is optional. -/
structure Intent where
  id : String
  params : IntentParams
  signature : Option String
  timestamp : Nat
deriving DecidableEq, Repr

/-- Embedded from `JACK_SDK.signIntent`: returns a copy of the intent with the
mock signature added via object spread; `rand` stands for the random hex
suffix `Math.random().toString(16).slice(2)`. -/
def signIntent (intent : Intent) (rand : String) : Intent :=
  { intent with signature := some (String.append "0xmock_signature_" rand) }

/-- A concrete `ACTIVE` snapshot used by the witnesses. -/
def sampleActive : ChannelState :=
  initialSnapshot "0xaa" "0xsender" "0xrecipient" "0xtoken" 1 1000 7

/-- `sampleActive` finalized with no transfers. -/
def sampleFinal : ChannelState :=
  { sampleActive with
    status := ChannelStatus.FINAL
    stateVersion := 2
    stateIntent := StateIntent.FINALIZE }

theorem assocGet_nil {α : Type} (k : String) : assocGet ([] : List (String × α)) k = none := rfl

theorem assocGet_put_self {α : Type} (l : List (String × α)) (k : String) (v : α) :
    assocGet (assocPut l k v) k = some v := by
  induction l with
  | nil => simp [assocPut, assocGet, List.find?]
  | cons e rest ih =>
    by_cases h : e.1 = k
    · simp [assocPut, h, assocGet, List.find?]
    · simp only [assocPut, if_neg h]
      simp only [assocGet, List.find?] at ih ⊢
      have hb : (e.1 == k) = false := by simp [h]
      rw [hb]
      exact ih

theorem assocGet_put_other {α : Type} (l : List (String × α)) (k k' : String) (v : α)
    (h : k' ≠ k) : assocGet (assocPut l k' v) k = assocGet l k := by
  induction l with
  | nil =>
    have hb : (k' == k) = false := by simp [h]
    simp [assocPut, assocGet, List.find?, hb]
  | cons e rest ih =>
    by_cases he : e.1 = k'
    · simp only [assocPut, if_pos he]
      simp only [assocGet, List.find?]
      have hb : (k' == k) = false := by simp [h]
      have hb2 : (e.1 == k) = false := by simp [he, h]
      rw [hb, hb2]
    · simp only [assocPut, if_neg he]
      simp only [assocGet, List.find?] at ih ⊢
      cases hc : (e.1 == k) with
      | true => rfl
      | false => exact ih

theorem applyUpdates_nil (L : Ledger) : applyUpdates L [] = L := rfl

theorem applyUpdates_cons (L : Ledger) (u : String × ChannelState)
    (us : List (String × ChannelState)) :
    applyUpdates L (u :: us) = applyUpdates (updateChannel L u.1 u.2) us := rfl

theorem getChannel_applyUpdates_other (cid : String) :
    ∀ (us : List (String × ChannelState)) (L : Ledger), (∀ u ∈ us, u.1 ≠ cid) →
      getChannel (applyUpdates L us) cid = getChannel L cid := by
  intro us
  induction us with
  | nil => intro L _; rfl
  | cons u us ih =>
    intro L h
    rw [applyUpdates_cons]
    rw [ih _ (fun w hw => h w (List.mem_cons_of_mem u hw))]
    exact assocGet_put_other L cid u.1 u.2 (h u (List.mem_cons_self u us))

theorem getChannel_applyUpdates_isSome (cid : String) :
    ∀ (us : List (String × ChannelState)) (L : Ledger),
      (getChannel L cid).isSome → (getChannel (applyUpdates L us) cid).isSome := by
  intro us
  induction us with
  | nil => intro L h; exact h
  | cons u us ih =>
    intro L h
    rw [applyUpdates_cons]
    apply ih
    by_cases hc : u.1 = cid
    · subst hc
      rw [show getChannel (updateChannel L u.1 u.2) u.1 = some u.2 from
        assocGet_put_self L u.1 u.2]
      rfl
    · rw [show getChannel (updateChannel L u.1 u.2) cid = getChannel L cid from
        assocGet_put_other L cid u.1 u.2 hc]
      exact h

theorem getChannel_applyUpdates_mem (cid : String) :
    ∀ (ss : List ChannelState) (L : Ledger) (s : ChannelState),
      getChannel (applyUpdates L (ss.map (fun t => (cid, t)))) cid = some s →
      s ∈ ss ∨ getChannel L cid = some s := by
  intro ss
  induction ss with
  | nil => intro L s h; exact Or.inr h
  | cons a ss ih =>
    intro L s h
    rw [List.map_cons, applyUpdates_cons] at h
    rcases ih _ _ h with hm | hg
    · exact Or.inl (List.mem_cons_of_mem a hm)
    · rw [show getChannel (updateChannel L cid a) cid = some a from
        assocGet_put_self L cid a] at hg
      exact Or.inl (by rw [Option.some.injEq] at hg; rw [← hg]; exact List.mem_cons_self a ss)

theorem getChannel_applyUpdates_last (cid : String) :
    ∀ (ss : List ChannelState) (s : ChannelState) (L : Ledger),
      getChannel (applyUpdates L ((s :: ss).map (fun t => (cid, t)))) cid =
        some ((s :: ss).getLast (List.cons_ne_nil s ss)) := by
  intro ss
  induction ss with
  | nil =>
    intro s L
    simp only [List.map_cons, List.map_nil, applyUpdates_cons, applyUpdates_nil,
      List.getLast_singleton]
    exact assocGet_put_self L cid s
  | cons b ss ih =>
    intro s L
    rw [List.map_cons, applyUpdates_cons, List.getLast_cons (List.cons_ne_nil b ss)]
    exact ih b (updateChannel L cid s)

theorem chain_version_getLast :
    ∀ (rest : List ChannelState) (a : ChannelState),
      List.Chain' (fun x y => y.stateVersion = x.stateVersion + 1) (a :: rest) →
      ((a :: rest).getLast (List.cons_ne_nil a rest)).stateVersion =
        a.stateVersion + rest.length := by
  intro rest
  induction rest with
  | nil => intro a _; simp [List.getLast_singleton]
  | cons b rest ih =>
    intro a h
    rw [List.chain'_cons] at h
    rw [List.getLast_cons (List.cons_ne_nil b rest)]
    rw [ih b h.2, h.1]
    simp only [List.length_cons]
    omega

theorem mem_assocPut {α : Type} (k : String) (v : α) :
    ∀ (l : List (String × α)), (l.map Prod.fst).Nodup →
      ∀ e ∈ assocPut l k v, e = (k, v) ∨ (e ∈ l ∧ e.1 ≠ k) := by
  intro l
  induction l with
  | nil =>
    intro _ e he
    simp only [assocPut, List.mem_singleton] at he
    exact Or.inl he
  | cons a rest ih =>
    intro hnd e he
    simp only [List.map_cons, List.nodup_cons] at hnd
    by_cases ha : a.1 = k
    · simp only [assocPut, if_pos ha] at he
      rcases List.mem_cons.mp he with h1 | h2
      · exact Or.inl h1
      · refine Or.inr ⟨List.mem_cons_of_mem a h2, ?_⟩
        intro hek
        exact hnd.1 (ha ▸ hek ▸ List.mem_map_of_mem Prod.fst h2)
    · simp only [assocPut, if_neg ha] at he
      rcases List.mem_cons.mp he with h1 | h2
      · exact Or.inr ⟨h1 ▸ List.mem_cons_self a rest, h1 ▸ ha⟩
      · rcases ih hnd.2 e h2 with h3 | h4
        · exact Or.inl h3
        · exact Or.inr ⟨List.mem_cons_of_mem a h4.1, h4.2⟩

theorem countP_assocPut_eq_one {α : Type} (k : String) (v : α) :
    ∀ (l : List (String × α)), l.countP (fun e => e.1 == k) ≤ 1 →
      (assocPut l k v).countP (fun e => e.1 == k) = 1 := by
  intro l
  induction l with
  | nil =>
    intro _
    simp [assocPut, List.countP_cons]
  | cons a rest ih =>
    intro h
    simp only [List.countP_cons] at h
    by_cases ha : a.1 = k
    · simp only [assocPut, if_pos ha]
      rw [List.countP_cons]
      have ha2 : (a.1 == k) = true := by simp [ha]
      rw [ha2, if_pos rfl] at h
      have hb : ((k, v).1 == k) = true := by simp
      rw [hb, if_pos rfl]
      omega
    · simp only [assocPut, if_neg ha]
      rw [List.countP_cons]
      have ha2 : (a.1 == k) = false := by simp [ha]
      rw [ha2, if_neg Bool.false_ne_true] at h
      rw [ha2, if_neg Bool.false_ne_true]
      rw [ih (by omega)]

theorem runTransfers_inv (init : ChannelState) (cid sender recipient tok : String)
    (now : Nat) :
    ∀ (transfers : List Nat) (L : Ledger) (s r v : Nat), transfers.sum ≤ s →
      (runTransfers init cid sender recipient tok now (L, s, r, v) transfers).2.1 +
        (runTransfers init cid sender recipient tok now (L, s, r, v) transfers).2.2.1 =
        s + r ∧
      (runTransfers init cid sender recipient tok now (L, s, r, v) transfers).2.2.2 =
        v + transfers.length := by
  intro transfers
  induction transfers with
  | nil => intro L s r v _; exact ⟨rfl, rfl⟩
  | cons amt rest ih =>
    intro L s r v h
    simp only [List.sum_cons] at h
    have hle : amt ≤ s := le_trans (Nat.le_add_right amt rest.sum) h
    have hrest : rest.sum ≤ s - amt := by omega
    simp only [runTransfers, List.foldl_cons] at ih ⊢
    rcases ih (updateChannel L cid
        (operateSnapshot init sender recipient tok (s - amt) (r + amt) (v + 1) now))
        (s - amt) (r + amt) (v + 1) hrest with ⟨h1, h2⟩
    constructor
    · rw [h1]; omega
    · rw [h2]; simp only [List.length_cons]; omega

theorem findOpenChannel_sound (L : Ledger) (tok : String) (s : ChannelState)
    (h : findOpenChannel L tok = some s) :
    s.token = tok ∧ s.status = ChannelStatus.ACTIVE ∧ ∃ c, (c, s) ∈ L := by
  simp only [findOpenChannel, Option.map_eq_some'] at h
  obtain ⟨e, hfind, hsnd⟩ := h
  have hp := List.find?_some hfind
  rw [Bool.and_eq_true, beq_iff_eq, beq_iff_eq] at hp
  have hmem := List.mem_of_find?_eq_some hfind
  subst hsnd
  exact ⟨hp.1, hp.2, e.1, by rw [Prod.mk.eta]; exact hmem⟩

theorem findOpenChannel_isSome (L : Ledger) (tok : String)
    (h : ∃ e ∈ L, e.2.token = tok ∧ e.2.status = ChannelStatus.ACTIVE) :
    (findOpenChannel L tok).isSome := by
  obtain ⟨e, he, h1, h2⟩ := h
  have hs : (L.find? (fun e => e.2.token == tok && e.2.status == ChannelStatus.ACTIVE)).isSome := by
    rw [List.find?_isSome]
    exact ⟨e, he, by rw [Bool.and_eq_true, beq_iff_eq, beq_iff_eq]; exact ⟨h1, h2⟩⟩
  obtain ⟨x, hx⟩ := Option.isSome_iff_exists.mp hs
  simp only [findOpenChannel, hx]
  rfl

theorem findOpenChannel_eq_none (L : Ledger) (tok : String)
    (h : ∀ e ∈ L, ¬(e.2.token = tok ∧ e.2.status = ChannelStatus.ACTIVE)) :
    findOpenChannel L tok = none := by
  simp only [findOpenChannel, Option.map_eq_none']
  rw [List.find?_eq_none]
  intro e he hp
  rw [Bool.and_eq_true, beq_iff_eq, beq_iff_eq] at hp
  exact h e he hp

theorem allocSum_mkAllocs (sender recipient tok : String) (sBal rBal : Nat) :
    allocSum (mkAllocs sender recipient tok sBal rBal) = sBal + rBal := by
  simp [allocSum, mkAllocs]

theorem finalizeSnapshot_allocations (init : ChannelState) (sender recipient tok : String)
    (sBal rBal v now : Nat) :
    (finalizeSnapshot init sender recipient tok sBal rBal v now).allocations =
      mkAllocs sender recipient tok sBal rBal := rfl

theorem initialSnapshot_allocations (cid sender recipient tok : String) (chainId : Int)
    (bal now : Nat) :
    (initialSnapshot cid sender recipient tok chainId bal now).allocations =
      mkAllocs sender recipient tok bal 0 := rfl

/-- C1: Conservation — for every channel created with an `INITIALIZE` snapshot
(version 1, status `ACTIVE`, two allocations) followed by N ≥ 0 `OPERATE`
updates each moving a transfer amount from the sender allocation to the
recipient allocation, then a `FINALIZE` update, the sum of allocation amounts
in the snapshot returned by `getChannel` equals the sum in the initial
snapshot. -/
theorem conservation_lifecycle (cid sender recipient tok : String) (chainId : Int)
    (bal : Nat) (transfers : List Nat) (now : Nat) (h : transfers.sum ≤ bal) :
    ∃ s, getChannel (runLifecycle cid sender recipient tok chainId bal transfers now) cid =
        some s ∧
      allocSum s.allocations =
        allocSum (initialSnapshot cid sender recipient tok chainId bal now).allocations := by
  rcases runTransfers_inv (initialSnapshot cid sender recipient tok chainId bal now)
      cid sender recipient tok now transfers
      (updateChannel [] cid (initialSnapshot cid sender recipient tok chainId bal now))
      bal 0 1 h with ⟨h1, h2⟩
  refine ⟨_, assocGet_put_self _ cid _, ?_⟩
  rw [finalizeSnapshot_allocations, initialSnapshot_allocations, allocSum_mkAllocs,
    allocSum_mkAllocs]
  omega

/-- Witness for C1 at a concrete lifecycle: balance 1000, transfers 100 and
250. -/
theorem conservation_lifecycle_witness :
    ∃ s, getChannel (runLifecycle "0xaa" "0xsender" "0xrecipient" "0xtoken" 1 1000
        [100, 250] 7) "0xaa" = some s ∧
      allocSum s.allocations =
        allocSum (initialSnapshot "0xaa" "0xsender" "0xrecipient" "0xtoken" 1 1000
          7).allocations :=
  conservation_lifecycle "0xaa" "0xsender" "0xrecipient" "0xtoken" 1 1000 [100, 250] 7
    (by decide)

/-- C2: Monotonic versioning — for every sequence of K ≥ 1 updates to the same
channel identifier via `updateChannel`, starting at `stateVersion` 1 with each
subsequent snapshot carrying a version exactly one greater than the previous,
the `stateVersion` of the stored snapshot after the sequence equals K. -/
theorem monotonic_versioning (L : Ledger) (cid : String) (s0 : ChannelState)
    (rest : List ChannelState) (h1 : s0.stateVersion = 1)
    (hchain : List.Chain' (fun a b => b.stateVersion = a.stateVersion + 1) (s0 :: rest)) :
    ∃ s, getChannel (applyUpdates L ((s0 :: rest).map (fun t => (cid, t)))) cid = some s ∧
      s.stateVersion = (s0 :: rest).length := by
  refine ⟨_, getChannel_applyUpdates_last cid rest s0 L, ?_⟩
  rw [chain_version_getLast rest s0 hchain, h1]
  simp only [List.length_cons]
  omega

/-- Witness for C2: two chained updates (versions 1 then 2) leave version 2
stored. -/
theorem monotonic_versioning_witness :
    ∃ s, getChannel (applyUpdates []
        (([sampleActive, { sampleActive with stateVersion := 2 }]).map
          (fun t => ("0xaa", t)))) "0xaa" = some s ∧
      s.stateVersion = ([sampleActive, { sampleActive with stateVersion := 2 }]).length :=
  monotonic_versioning [] "0xaa" sampleActive [{ sampleActive with stateVersion := 2 }]
    rfl (by simp [List.chain'_cons, sampleActive, initialSnapshot])

/-- C3: Lookup correctness and overwrite semantics — `getChannel` on an
identifier never written returns "not found"; after any write the last-written
snapshot is returned field for field; a write to a different identifier leaves
the lookup unchanged; and the ledger holds exactly one, the latest, record per
channel identifier. -/
theorem lookup_overwrite (L : Ledger) (cid cid2 : String) (s s2 : ChannelState)
    (hne : cid2 ≠ cid) (us : List (String × ChannelState))
    (hus : ∀ u ∈ us, u.1 ≠ cid) :
    getChannel (applyUpdates [] us) cid = none ∧
    getChannel (updateChannel L cid s) cid = some s ∧
    getChannel (updateChannel L cid2 s2) cid = getChannel L cid ∧
    (L.countP (fun e => e.1 == cid) ≤ 1 →
      (updateChannel L cid s).countP (fun e => e.1 == cid) = 1) := by
  refine ⟨?_, assocGet_put_self L cid s, assocGet_put_other L cid cid2 s2 hne, ?_⟩
  · rw [getChannel_applyUpdates_other cid us [] hus]; rfl
  · exact countP_assocPut_eq_one cid s L

/-- Witness for C3 on a one-entry ledger and an unrelated update sequence. -/
theorem lookup_overwrite_witness :
    getChannel (applyUpdates [] [("0xbb", sampleActive)]) "0xaa" = none ∧
    getChannel (updateChannel [("0xbb", sampleFinal)] "0xaa" sampleActive) "0xaa" =
      some sampleActive ∧
    getChannel (updateChannel [("0xbb", sampleFinal)] "0xbb" sampleFinal) "0xaa" =
      getChannel [("0xbb", sampleFinal)] "0xaa" ∧
    (([("0xbb", sampleFinal)] : Ledger).countP (fun e => e.1 == "0xaa") ≤ 1 →
      (updateChannel [("0xbb", sampleFinal)] "0xaa" sampleActive).countP
        (fun e => e.1 == "0xaa") = 1) :=
  lookup_overwrite [("0xbb", sampleFinal)] "0xaa" "0xbb" sampleActive sampleFinal
    (by decide) [("0xbb", sampleActive)] (by decide)

/-- C4: `findOpenChannel` correctness and terminality — for every ledger
state, any returned record is a stored record with matching token and `ACTIVE`
status; when such a record exists one is returned; when none exists "not
found" is returned; and after a `FINALIZE` update the channel is excluded from
`findOpenChannel` results for its token, assuming no other open channel shares
that token (the rider applies to the terminality part only). -/
theorem findOpenChannel_spec (L : Ledger) (tok cid : String) (sFin : ChannelState) :
    (∀ s, findOpenChannel L tok = some s →
      s.token = tok ∧ s.status = ChannelStatus.ACTIVE ∧ ∃ c, (c, s) ∈ L) ∧
    ((∃ e ∈ L, e.2.token = tok ∧ e.2.status = ChannelStatus.ACTIVE) →
      (findOpenChannel L tok).isSome) ∧
    ((∀ e ∈ L, ¬(e.2.token = tok ∧ e.2.status = ChannelStatus.ACTIVE)) →
      findOpenChannel L tok = none) ∧
    ((L.map Prod.fst).Nodup → sFin.status = ChannelStatus.FINAL →
      (∀ e ∈ L, e.1 ≠ cid → ¬(e.2.token = tok ∧ e.2.status = ChannelStatus.ACTIVE)) →
      findOpenChannel (updateChannel L cid sFin) tok = none) := by
  refine ⟨fun s hs => findOpenChannel_sound L tok s hs, findOpenChannel_isSome L tok,
    findOpenChannel_eq_none L tok, ?_⟩
  intro hwf hfin hothers
  apply findOpenChannel_eq_none
  intro e he
  rcases mem_assocPut cid sFin L hwf e he with h1 | h2
  · intro hc
    rw [h1] at hc
    exact absurd hc.2 (by simp [hfin])
  · exact hothers e h2.1 h2.2

/-- Witness for C4: a single-channel ledger for the token, finalized. -/
theorem findOpenChannel_spec_witness :
    (∀ s, findOpenChannel [("0xaa", sampleActive)] "0xtoken" = some s →
      s.token = "0xtoken" ∧ s.status = ChannelStatus.ACTIVE ∧
        ∃ c, (c, s) ∈ ([("0xaa", sampleActive)] : Ledger)) ∧
    ((∃ e ∈ ([("0xaa", sampleActive)] : Ledger),
        e.2.token = "0xtoken" ∧ e.2.status = ChannelStatus.ACTIVE) →
      (findOpenChannel [("0xaa", sampleActive)] "0xtoken").isSome) ∧
    ((∀ e ∈ ([("0xaa", sampleActive)] : Ledger),
        ¬(e.2.token = "0xtoken" ∧ e.2.status = ChannelStatus.ACTIVE)) →
      findOpenChannel [("0xaa", sampleActive)] "0xtoken" = none) ∧
    ((([("0xaa", sampleActive)] : Ledger).map Prod.fst).Nodup →
      sampleFinal.status = ChannelStatus.FINAL →
      (∀ e ∈ ([("0xaa", sampleActive)] : Ledger), e.1 ≠ "0xaa" →
        ¬(e.2.token = "0xtoken" ∧ e.2.status = ChannelStatus.ACTIVE)) →
      findOpenChannel (updateChannel [("0xaa", sampleActive)] "0xaa" sampleFinal)
        "0xtoken" = none) :=
  findOpenChannel_spec [("0xaa", sampleActive)] "0xtoken" "0xaa" sampleFinal

/-- C5: Zero-transfer closure — creating a channel with an `INITIALIZE`
snapshot (version 1, status `ACTIVE`) and immediately finalizing it with no
intervening `OPERATE` updates stores a snapshot with the original allocations
unchanged, status `FINAL` and `stateVersion` 2. -/
theorem zero_transfer_closure (cid : String) (init : ChannelState)
    (hv : init.stateVersion = 1) (hst : init.status = ChannelStatus.ACTIVE)
    (hin : init.stateIntent = StateIntent.INITIALIZE) :
    ∃ s, getChannel (updateChannel (updateChannel [] cid init) cid
        { init with
          status := ChannelStatus.FINAL
          stateVersion := 2
          stateIntent := StateIntent.FINALIZE }) cid = some s ∧
      s.allocations = init.allocations ∧ s.status = ChannelStatus.FINAL ∧
      s.stateVersion = 2 :=
  ⟨_, assocGet_put_self _ cid _, rfl, rfl, rfl⟩

/-- Witness for C5 with the sample snapshot. -/
theorem zero_transfer_closure_witness :
    ∃ s, getChannel (updateChannel (updateChannel [] "0xaa" sampleActive) "0xaa"
        { sampleActive with
          status := ChannelStatus.FINAL
          stateVersion := 2
          stateIntent := StateIntent.FINALIZE }) "0xaa" = some s ∧
      s.allocations = sampleActive.allocations ∧ s.status = ChannelStatus.FINAL ∧
      s.stateVersion = 2 :=
  zero_transfer_closure "0xaa" sampleActive rfl rfl rfl

/-- C6: Identity preservation — across any sequence of spread-built updates to
the same identifier, the stored snapshot's `channelId`, `chainId` and `token`
always equal the values set by the initial `INITIALIZE` snapshot; only
allocations, version, status, intent and timestamp may differ. -/
theorem identity_preservation (cid : String) (init : ChannelState)
    (specs : List (ChannelStatus × List ChannelAllocation × Nat × StateIntent × Nat)) :
    ∃ s, getChannel (applyUpdates (updateChannel [] cid init)
        ((specs.map (fun u => spreadUpdate init u.1 u.2.1 u.2.2.1 u.2.2.2.1 u.2.2.2.2)).map
          (fun t => (cid, t)))) cid = some s ∧
      s.channelId = init.channelId ∧ s.chainId = init.chainId ∧ s.token = init.token := by
  have hsome : (getChannel (updateChannel [] cid init) cid).isSome := by
    rw [show getChannel (updateChannel [] cid init) cid = some init from
      assocGet_put_self [] cid init]
    rfl
  have hsome2 := getChannel_applyUpdates_isSome cid
    ((specs.map (fun u => spreadUpdate init u.1 u.2.1 u.2.2.1 u.2.2.2.1 u.2.2.2.2)).map
      (fun t => (cid, t))) (updateChannel [] cid init) hsome
  obtain ⟨s, hs⟩ := Option.isSome_iff_exists.mp hsome2
  refine ⟨s, hs, ?_⟩
  rcases getChannel_applyUpdates_mem cid
      (specs.map (fun u => spreadUpdate init u.1 u.2.1 u.2.2.1 u.2.2.2.1 u.2.2.2.2))
      (updateChannel [] cid init) s hs with hm | hg
  · obtain ⟨u, hu, hequ⟩ := List.mem_map.mp hm
    rw [← hequ]
    exact ⟨rfl, rfl, rfl⟩
  · rw [show getChannel (updateChannel [] cid init) cid = some init from
      assocGet_put_self [] cid init] at hg
    have heq := Option.some.inj hg
    rw [← heq]
    exact ⟨rfl, rfl, rfl⟩

/-- C7: No rejection and no status-transition guard — `updateChannel` accepts
every snapshot without signaling any error: malformed snapshots (zero version,
version lower than the stored record, empty allocations) are stored as given,
and a channel whose stored status is `FINAL` is silently overwritten by a
subsequent `ACTIVE` snapshot under the same identifier. -/
theorem no_rejection (L : Ledger) (cid : String) (sOld sNew : ChannelState)
    (hold : getChannel L cid = some sOld) (hfin : sOld.status = ChannelStatus.FINAL)
    (hact : sNew.status = ChannelStatus.ACTIVE) :
    getChannel (updateChannel L cid sNew) cid = some sNew ∧
    ∀ s : ChannelState,
      s.stateVersion = 0 ∨ s.stateVersion < sOld.stateVersion ∨ s.allocations = [] →
      getChannel (updateChannel L cid s) cid = some s :=
  ⟨assocGet_put_self L cid sNew, fun s _ => assocGet_put_self L cid s⟩

/-- Witness for C7: reopening a finalized sample channel succeeds. -/
theorem no_rejection_witness :
    getChannel (updateChannel [("0xaa", sampleFinal)] "0xaa" sampleActive) "0xaa" =
      some sampleActive ∧
    ∀ s : ChannelState,
      s.stateVersion = 0 ∨ s.stateVersion < sampleFinal.stateVersion ∨
        s.allocations = [] →
      getChannel (updateChannel [("0xaa", sampleFinal)] "0xaa" s) "0xaa" = some s :=
  no_rejection [("0xaa", sampleFinal)] "0xaa" sampleFinal sampleActive (by decide)
    rfl rfl

/-- C8: No deletion — a channel whose stored status is `FINAL` remains
retrievable by `getChannel` under its identifier through any sequence of
updates to other identifiers, and no single update ever removes the entry; the
ledger only overwrites, never deletes. -/
theorem no_deletion (L : Ledger) (cid : String) (sFin : ChannelState)
    (hold : getChannel L cid = some sFin) (hfin : sFin.status = ChannelStatus.FINAL)
    (us : List (String × ChannelState)) (hus : ∀ u ∈ us, u.1 ≠ cid) :
    getChannel (applyUpdates L us) cid = some sFin ∧
    ∀ (cid2 : String) (s2 : ChannelState),
      (getChannel (updateChannel L cid2 s2) cid).isSome := by
  constructor
  · rw [getChannel_applyUpdates_other cid us L hus]; exact hold
  · intro cid2 s2
    by_cases hc : cid2 = cid
    · subst hc
      rw [show getChannel (updateChannel L cid2 s2) cid2 = some s2 from
        assocGet_put_self L cid2 s2]
      rfl
    · rw [show getChannel (updateChannel L cid2 s2) cid = getChannel L cid from
        assocGet_put_other L cid cid2 s2 hc]
      rw [hold]
      rfl

/-- Witness for C8: the finalized sample channel survives an unrelated
update. -/
theorem no_deletion_witness :
    getChannel (applyUpdates [("0xaa", sampleFinal)] [("0xbb", sampleActive)]) "0xaa" =
      some sampleFinal ∧
    ∀ (cid2 : String) (s2 : ChannelState),
      (getChannel (updateChannel [("0xaa", sampleFinal)] cid2 s2) "0xaa").isSome :=
  no_deletion [("0xaa", sampleFinal)] "0xaa" sampleFinal (by decide) rfl
    [("0xbb", sampleActive)] (by decide)

/-- C9: Intent-store round trip — after `saveIntent`, `getIntent` on the saved
id returns the saved intent; intents saved under other ids remain retrievable
unchanged; and `getIntent` on a never-saved id over the empty store (absent
file) returns "undefined". -/
theorem intent_store_roundtrip {α : Type} (file : Option (List (String × α)))
    (intentId otherId : String) (v w : α) (hne : otherId ≠ intentId) :
    getIntent (saveIntent file intentId v) intentId = some v ∧
    getIntent (saveIntent file otherId w) intentId = getIntent file intentId ∧
    getIntent (none : Option (List (String × α))) intentId = none :=
  ⟨assocGet_put_self (getIntents file) intentId v,
   assocGet_put_other (getIntents file) intentId otherId w hne, rfl⟩

/-- Witness for C9 over a missing store file and natural-number payloads. -/
theorem intent_store_roundtrip_witness :
    getIntent (saveIntent (none : Option (List (String × Nat))) "JK-1" 5) "JK-1" =
      some 5 ∧
    getIntent (saveIntent (none : Option (List (String × Nat))) "JK-2" 9) "JK-1" =
      getIntent (none : Option (List (String × Nat))) "JK-1" ∧
    getIntent (none : Option (List (String × Nat))) "JK-1" = none :=
  intent_store_roundtrip none "JK-1" "JK-2" 5 9 (by decide)

/-- C10: `signIntent` frame — the returned intent keeps the input's id, params
and timestamp, differing only in the added mock signature; the input value is
untouched (the source builds the result by object spread). -/
theorem signIntent_frame (intent : Intent) (rand : String) :
    (signIntent intent rand).id = intent.id ∧
    (signIntent intent rand).params = intent.params ∧
    (signIntent intent rand).timestamp = intent.timestamp ∧
    (signIntent intent rand).signature =
      some (String.append "0xmock_signature_" rand) :=
  ⟨rfl, rfl, rfl, rfl⟩
